import Mathlib

/-!
Verification of the psmqtt task-dispatch core (src/task.py).

The embedding models:
- Python runtime values as the dispatcher discriminates them (`Payload`);
- the serialization routine `payload_as_string` (src/task.py lines 126-136),
  with the behaviour of the external `json.dumps` collaborator modelled from
  the spec as a JSON-object/array encoder that fails on values that are not
  JSON-serializable;
- the dispatcher `run_task` (src/task.py lines 119-174) as a pure function
  from the outcome of the external value-resolution collaborator to the list
  of publish commands it emits, in order;
- the singleton-construction contract of `MqttClient.__init__`
  (src/task.py lines 27-29) together with Python `assert` semantics;
- the single event-processing context with the blocking
  `time.sleep(10)` disconnect cooldown (src/task.py line 102), the
  sequential delivery of broker events being modelled from the spec;
- a JSON parser, used to state the serialization round-trip property.
-/

/-! ### Decimal rendering of integers (Python `str` on int, and JSON numbers) -/

/-- One decimal digit character. -/
def digitChar : Nat → Char
  | 0 => '0' | 1 => '1' | 2 => '2' | 3 => '3' | 4 => '4'
  | 5 => '5' | 6 => '6' | 7 => '7' | 8 => '8' | _ => '9'

/-- Fuel-driven decimal rendering of a natural number, most significant digit
first.  The fuel is only there to make the recursion structural; `natToDec`
supplies enough of it. -/
def natToDecA : Nat → Nat → List Char
  | 0, _ => []
  | f + 1, n => if n < 10 then [digitChar n] else natToDecA f (n / 10) ++ [digitChar (n % 10)]

/-- Decimal rendering of a natural number. -/
def natToDec (n : Nat) : List Char := natToDecA (n + 1) n

/-- Decimal rendering of an integer, with a leading minus sign when negative.
This is how both Python `str` and `json.dumps` render an int. -/
def intToDec (n : Int) : List Char :=
  if n < 0 then '-' :: natToDec n.natAbs else natToDec n.toNat

/-! ### The payload data model

Python values as `run_task`/`payload_as_string` discriminate them with
`isinstance`: dict, IntEnum, list, and everything else (rendered with `str`).
`pobj` stands for an arbitrary object that `str` can render but that
`json.dumps` rejects as not JSON serializable; it carries its `str` form.
Mapping keys are modelled as strings (the dispatcher applies `str` to each
key before using it as a subtopic). -/
inductive Payload where
  | pnone
  | pbool (b : Bool)
  | pint (n : Int)
  | pstr (s : String)
  | penum (n : Int)
  | plist (vs : List Payload)
  | pdict (kvs : List (String × Payload))
  | pobj (s : String)

/-- Python `str` on scalar values.  `payload_as_string` only reaches this on
values that are not dict, not IntEnum and not list; the `plist`/`pdict`/`penum`
arms below are therefore never consulted by the dispatcher. -/
def pyStr : Payload → String
  | Payload.pnone => "None"
  | Payload.pbool true => "True"
  | Payload.pbool false => "False"
  | Payload.pint n => String.mk (intToDec n)
  | Payload.pstr s => s
  | Payload.pobj s => s
  | Payload.penum n => String.mk (intToDec n)
  | Payload.plist _ => String.mk []
  | Payload.pdict _ => String.mk []

/-- JSON string-content escaping: `"` and `\` get a backslash, everything else
is passed through. -/
def escC : List Char → List Char
  | [] => []
  | c :: tl => if c = '"' || c = '\\' then '\\' :: c :: escC tl else c :: escC tl

mutual
/-- Modelled from the spec: the characters `json.dumps` produces for a
JSON-serializable value (Python default separators, so `", "` between items
and `": "` after keys; an `IntEnum` serializes as its integer value).  The
`pobj` arm is never used: `jsonDumps` rejects such values instead. -/
def encC : Payload → List Char
  | Payload.pnone => ['n', 'u', 'l', 'l']
  | Payload.pbool true => ['t', 'r', 'u', 'e']
  | Payload.pbool false => ['f', 'a', 'l', 's', 'e']
  | Payload.pint n => intToDec n
  | Payload.penum n => intToDec n
  | Payload.pstr s => '"' :: (escC s.data ++ ['"'])
  | Payload.pobj _ => []
  | Payload.plist [] => ['[', ']']
  | Payload.plist (v :: tl) => '[' :: (encC v ++ (encLTail tl ++ [']']))
  | Payload.pdict [] => ['{', '}']
  | Payload.pdict (kv :: tl) => '{' :: (encMem kv ++ (encKVTail tl ++ ['}']))

/-- Rendering of the second and later array elements, each preceded by `", "`. -/
def encLTail : List Payload → List Char
  | [] => []
  | v :: tl => ',' :: ' ' :: (encC v ++ encLTail tl)

/-- Rendering of one object member: quoted key, `": "`, value. -/
def encMem : String × Payload → List Char
  | (k, v) => '"' :: (escC k.data ++ ('"' :: ':' :: ' ' :: encC v))

/-- Rendering of the second and later object members, each preceded by `", "`. -/
def encKVTail : List (String × Payload) → List Char
  | [] => []
  | kv :: tl => ',' :: ' ' :: (encMem kv ++ encKVTail tl)
end

mutual
/-- Whether `json.dumps` accepts the value (no `pobj` anywhere inside). -/
def serializable : Payload → Bool
  | Payload.pobj _ => false
  | Payload.plist vs => serializableL vs
  | Payload.pdict kvs => serializableKV kvs
  | _ => true

def serializableL : List Payload → Bool
  | [] => true
  | v :: tl => serializable v && serializableL tl

def serializableKV : List (String × Payload) → Bool
  | [] => true
  | kv :: tl => serializable kv.2 && serializableKV tl
end

mutual
/-- Whether the value is free of `IntEnum` wrappers (an `IntEnum` serializes
to a plain JSON number, so parsing back cannot restore the wrapper). -/
def noEnum : Payload → Bool
  | Payload.penum _ => false
  | Payload.plist vs => noEnumL vs
  | Payload.pdict kvs => noEnumKV kvs
  | _ => true

def noEnumL : List Payload → Bool
  | [] => true
  | v :: tl => noEnum v && noEnumL tl

def noEnumKV : List (String × Payload) → Bool
  | [] => true
  | kv :: tl => noEnum kv.2 && noEnumKV tl
end

/-- A value built only from null, booleans, ints, strings, arrays and
objects: exactly the JSON-representable values. -/
def jsonOk (v : Payload) : Bool := serializable v && noEnum v

/-- JSON-representability for element lists. -/
def jsonOkL (vs : List Payload) : Bool := serializableL vs && noEnumL vs

/-- JSON-representability for member lists. -/
def jsonOkKV (kvs : List (String × Payload)) : Bool := serializableKV kvs && noEnumKV kvs

/-- The error text of the `TypeError` raised by `json.dumps` on a value that
is not JSON serializable (modelled from the spec; CPython interpolates the
offending type name into this message). -/
def jsonErrMsg : String := "Object is not JSON serializable"

/-- Modelled from the spec: the external `json.dumps` collaborator.  It
either returns the rendered text or raises for a non-serializable value. -/
def jsonDumps (v : Payload) : Except String String :=
  if serializable v then Except.ok (String.mk (encC v))
  else Except.error jsonErrMsg

/-- Function `payload_as_string` from src/task.py lines 126-136: dict goes to
`json.dumps`, IntEnum to the decimal of its underlying value, non-lists to
`str`, a single-element list to the serialization of its sole element, and
any other list to `json.dumps`. -/
def payload_as_string : Payload → Except String String
  | Payload.pdict kvs => jsonDumps (Payload.pdict kvs)
  | Payload.penum n => Except.ok (String.mk (intToDec n))
  | Payload.plist vs =>
    match vs with
    | [v] => payload_as_string v
    | _ => jsonDumps (Payload.plist vs)
  | v => Except.ok (pyStr v)

/-- The string `payload_as_string` yields when it does not raise. -/
def pasD (v : Payload) : String :=
  match payload_as_string v with
  | Except.ok s => s
  | Except.error _ => String.mk []

/-- Whether an `Except` outcome is a success. -/
def isOkB : Except String String → Bool
  | Except.ok _ => true
  | Except.error _ => false

/-! ### Topics and publishes -/

/-- Modelled from the spec: the interface of the `Topic` collaborator
(`src/topic.py` is not part of the observed source).  `run_task` only ever
calls these four operations, so the dispatcher is embedded relative to an
arbitrary topic value. -/
structure TopicM where
  get_topic : String
  get_subtopic : String → String
  get_error_topic : String
  is_multitopic : Bool

/-- One outbound publish command: topic, payload text, QoS and retain flag
(`mqttc_publish`, src/task.py lines 138-143). -/
structure Publish where
  topic : String
  payload : String
  qos : Nat
  retain : Bool
  deriving DecidableEq

/-- The error-topic publish performed by the `except` clause of `run_task`
(src/task.py line 172). -/
def errP (t : TopicM) (e : String) (q : Nat) (r : Bool) : Publish :=
  ⟨t.get_error_topic, e, q, r⟩

/-- Index-wise fan-out over a list payload (src/task.py lines 158-161).
Returns the publishes emitted before any failure, and the error raised by
`payload_as_string` on the first failing element, if any.  `i` is the index
of the first element. -/
def fanOutList (t : TopicM) (q : Nat) (r : Bool) : Nat → List Payload → List Publish × Option String
  | _, [] => ([], none)
  | i, v :: tl =>
    match payload_as_string v with
    | Except.error e => ([], some e)
    | Except.ok s =>
      let rest := fanOutList t q r (i + 1) tl
      (⟨t.get_subtopic (toString i), s, q, r⟩ :: rest.1, rest.2)

/-- Key-wise fan-out over a dict payload in insertion order
(src/task.py lines 163-167). -/
def fanOutDict (t : TopicM) (q : Nat) (r : Bool) : List (String × Payload) → List Publish × Option String
  | [] => ([], none)
  | kv :: tl =>
    match payload_as_string kv.2 with
    | Except.error e => ([], some e)
    | Except.ok s =>
      let rest := fanOutDict t q r tl
      (⟨t.get_subtopic kv.1, s, q, r⟩ :: rest.1, rest.2)

/-- The `is_seq` test of src/task.py line 154: list or dict. -/
def is_seq : Payload → Bool
  | Payload.plist _ => true
  | Payload.pdict _ => true
  | _ => false

/-- A single apostrophe, kept out of string literals. -/
def apos : String := String.mk [Char.ofNat 39]

/-- The message of the exception raised on a multi-valued result routed to a
non-wildcard topic (src/task.py line 156). -/
def multiValuedMsg (task : String) : String :=
  "Result of task " ++ apos ++ task ++ apos ++ " has several values but topic doesn" ++ apos
    ++ "t contain " ++ apos ++ "*" ++ apos ++ " char"

/-- The `try` body and `except` clause of `run_task`
(src/task.py lines 152-174), as the ordered list of publishes it emits.
`getValueResult` is the outcome of the external `get_value(task)` call:
either the resolved payload or the message of the exception it raised.
`q`/`r` are the QoS and retain configuration fixed at construction
(`self.qos`, `self.retain`).  Any exception inside the `try` block results in
exactly one publish of its text to the error topic, after whatever publishes
already happened. -/
def run_task (task : String) (t : TopicM) (q : Nat) (r : Bool)
    (getValueResult : Except String Payload) : List Publish :=
  match getValueResult with
  | Except.error e => [errP t e q r]
  | Except.ok payload =>
    if is_seq payload && !t.is_multitopic then
      [errP t (multiValuedMsg task) q r]
    else
      match payload with
      | Payload.plist vs =>
        let res := fanOutList t q r 0 vs
        match res.2 with
        | none => res.1
        | some e => res.1 ++ [errP t e q r]
      | Payload.pdict kvs =>
        let res := fanOutDict t q r kvs
        match res.2 with
        | none => res.1
        | some e => res.1 ++ [errP t e q r]
      | v =>
        match payload_as_string v with
        | Except.ok s => [⟨t.get_topic, s, q, r⟩]
        | Except.error e => [errP t e q r]

/-! ### Singleton construction (MqttClient.__init__, src/task.py lines 27-29) -/

/-- The data of one would-be `MqttClient` instance (only identity matters for
the singleton contract). -/
structure ClientRec where
  client_id : String
  deriving DecidableEq

/-- The message of a failed Python `assert`. -/
def assertErr : String := "AssertionError"

/-- Model of `MqttClient.__init__` restricted to its singleton guard, src/task.py
lines 27-29: `assert theClient is None; theClient = self`.  Python `assert`
statements are skipped entirely when the interpreter runs with `-O`, which
`assertsEnabled` models.  The result is the new value of the global
`theClient`, or the assertion failure. -/
def mqttClient_init (assertsEnabled : Bool) (theClient : Option ClientRec) (c : ClientRec) :
    Except String (Option ClientRec) :=
  if assertsEnabled && theClient.isSome then Except.error assertErr
  else Except.ok (some c)

/-! ### Event scheduling and the disconnect cooldown -/

/-- Broker events delivered to the client callbacks. -/
inductive BrokerEvent where
  | connectAttempt
  | connectAck
  | message (topic : String)
  | disconnect

/-- Time spent inside the callback handling each event: `on_disconnect` blocks
for 10 time units (`time.sleep(10)`, src/task.py line 102); the other handlers
are modelled as instantaneous. -/
def handlerTime : BrokerEvent → Nat
  | BrokerEvent.disconnect => 10
  | _ => 0

/-- Modelled from the spec: the single event-processing context.  Events are
handled strictly one at a time in arrival order; an event that arrives while a
handler is still running is processed only once that handler returns.  Given
the time at which the context becomes free and the arrival-ordered queue of
`(arrivalTime, event)` pairs, this yields the `(startTime, event)` pair for
each event. -/
def schedule : Nat → List (Nat × BrokerEvent) → List (Nat × BrokerEvent)
  | _, [] => []
  | free, (arr, e) :: tl =>
    let s := max free arr
    (s, e) :: schedule (s + handlerTime e) tl

/-! ### A JSON parser (to state the round-trip property) -/

/-- Decimal digit test on characters. -/
def isDigC (c : Char) : Bool := 48 ≤ c.toNat && c.toNat ≤ 57

/-- True when the input does not start with a decimal digit (so a preceding
number cannot extend into it). -/
def noDigitHead : List Char → Bool
  | [] => true
  | c :: _ => !isDigC c

/-- Accumulate decimal digits from the front of the input. -/
def parseDigits : List Char → Nat → Nat × List Char
  | [], acc => (acc, [])
  | c :: r, acc => if isDigC c then parseDigits r (acc * 10 + (c.toNat - 48)) else (acc, c :: r)

/-- Parse a nonempty run of decimal digits. -/
def parseNat : List Char → Option (Nat × List Char)
  | [] => none
  | c :: r => if isDigC c then some (parseDigits r (c.toNat - 48)) else none

/-- Drop spaces from the front of the input. -/
def skipWs : List Char → List Char
  | [] => []
  | c :: l => if c = ' ' then skipWs l else c :: l

/-- Whether the input starts with the given character. -/
def startsWith1 : List Char → Char → Bool
  | [], _ => false
  | c :: _, t => decide (c = t)

/-- Require the given characters at the front of the input. -/
def expect : List Char → List Char → Option (List Char)
  | [], cs => some cs
  | _ :: _, [] => none
  | e :: es, c :: cs => if c = e then expect es cs else none

/-- Fuel-driven body of the JSON string parser: consume up to the closing
quote, undoing the `escC` escapes. -/
def parseStrF : Nat → List Char → Option (String × List Char)
  | 0, _ => none
  | f + 1, cs =>
    match cs with
    | [] => none
    | c :: r =>
      if c = '"' then some (String.mk [], r)
      else if c = '\\' then
        match r with
        | [] => none
        | e :: r2 =>
          if e = '"' || e = '\\' then
            (parseStrF f r2).map (fun p => (String.mk (e :: p.1.data), p.2))
          else none
      else (parseStrF f r).map (fun p => (String.mk (c :: p.1.data), p.2))

/-- Parse a JSON string body (after the opening quote). -/
def parseStr (cs : List Char) : Option (String × List Char) :=
  parseStrF (cs.length + 1) cs

mutual
/-- Fuel-driven JSON value parser. -/
def parseVal : Nat → List Char → Option (Payload × List Char)
  | 0, _ => none
  | f + 1, cs =>
    match cs with
    | [] => none
    | c :: r =>
      if isDigC c then (parseNat (c :: r)).map (fun p => (Payload.pint (p.1 : Int), p.2))
      else if c = '-' then (parseNat r).map (fun p => (Payload.pint (-(p.1 : Int)), p.2))
      else if c = 'n' then (expect ['u', 'l', 'l'] r).map (fun r2 => (Payload.pnone, r2))
      else if c = 't' then (expect ['r', 'u', 'e'] r).map (fun r2 => (Payload.pbool true, r2))
      else if c = 'f' then (expect ['a', 'l', 's', 'e'] r).map (fun r2 => (Payload.pbool false, r2))
      else if c = '"' then (parseStr r).map (fun p => (Payload.pstr p.1, p.2))
      else if c = '[' then
        if startsWith1 r ']' then some (Payload.plist [], r.drop 1)
        else (parseElems f r).map (fun p => (Payload.plist p.1, p.2))
      else if c = '{' then
        if startsWith1 r '}' then some (Payload.pdict [], r.drop 1)
        else (parseMembers f r).map (fun p => (Payload.pdict p.1, p.2))
      else none

/-- Fuel-driven parser for one or more array elements followed by `]`. -/
def parseElems : Nat → List Char → Option (List Payload × List Char)
  | 0, _ => none
  | f + 1, cs =>
    match parseVal f cs with
    | none => none
    | some (v, r) =>
      match r with
      | ']' :: r2 => some ([v], r2)
      | ',' :: r2 =>
        match parseElems f (skipWs r2) with
        | none => none
        | some (vs, r3) => some (v :: vs, r3)
      | _ => none

/-- Fuel-driven parser for one or more object members followed by `}`. -/
def parseMembers : Nat → List Char → Option (List (String × Payload) × List Char)
  | 0, _ => none
  | f + 1, cs =>
    match cs with
    | '"' :: cs2 =>
      match parseStr cs2 with
      | none => none
      | some (k, r) =>
        match r with
        | ':' :: r2 =>
          match parseVal f (skipWs r2) with
          | none => none
          | some (v, r3) =>
            match r3 with
            | '}' :: r4 => some ([(k, v)], r4)
            | ',' :: r4 =>
              match parseMembers f (skipWs r4) with
              | none => none
              | some (kvs, r5) => some ((k, v) :: kvs, r5)
            | _ => none
        | _ => none
    | _ => none
end

/-- Parse a complete JSON document: one value consuming the whole input. -/
def jsonParse (s : String) : Option Payload :=
  match parseVal (s.data.length + 1) s.data with
  | some (v, []) => some v
  | _ => none

/-! ### Concrete inputs used by the witness theorems -/

/-- A task name used in witnesses. -/
def wTask : String := "disk/usage"

/-- Subtopic scheme used by the witness topics. -/
def wSub (k : String) : String := "base/" ++ k

/-- A wildcard-marked topic. -/
def wTopicWild : TopicM := ⟨"base", wSub, "err/base", true⟩

/-- A topic without a wildcard marker. -/
def wTopicPlain : TopicM := ⟨"base", wSub, "err/base", false⟩

/-- A resolver error text used in witnesses. -/
def wErr : String := "disk not found"

/-- A type name for a non-serializable object used in witnesses. -/
def wObj : String := "obj"

/-- A client record used in witnesses. -/
def wClientA : ClientRec := ⟨"psmqtt"⟩

/-- Another client record used in witnesses. -/
def wClientB : ClientRec := ⟨"psmqtt2"⟩

/-- A mapping key used in witnesses. -/
def wKeyA : String := "sda"

/-- Another mapping key used in witnesses. -/
def wKeyB : String := "sdb"

/-! ## Helper lemmas -/

/-- A successful serialization yields exactly `pasD`. -/
theorem pas_ok (v : Payload) (h : isOkB (payload_as_string v) = true) :
    payload_as_string v = Except.ok (pasD v) := by
  cases hv : payload_as_string v with
  | ok s => simp [pasD, hv]
  | error e => rw [hv] at h; simp [isOkB] at h

/-- Key-wise fan-out on an all-serializable member list: one publish per key,
in order, and no error. -/
theorem fanOutDict_ok (t : TopicM) (q : Nat) (r : Bool) :
    ∀ kvs : List (String × Payload), (∀ kv ∈ kvs, isOkB (payload_as_string kv.2) = true) →
      fanOutDict t q r kvs
        = (kvs.map (fun kv => ⟨t.get_subtopic kv.1, pasD kv.2, q, r⟩), none) := by
  intro kvs
  induction kvs with
  | nil => intro _; rfl
  | cons kv tl ih =>
    intro h
    have h1 := pas_ok kv.2 (h kv (List.mem_cons_self kv tl))
    simp only [fanOutDict, h1, List.map_cons]
    rw [ih (fun x hx => h x (List.mem_cons_of_mem _ hx))]

/-- Index-wise fan-out on an all-serializable element list: no error, one
publish per element. -/
theorem fanOutList_ok (t : TopicM) (q : Nat) (r : Bool) :
    ∀ vs : List Payload, (∀ v ∈ vs, isOkB (payload_as_string v) = true) →
      ∀ i, (fanOutList t q r i vs).2 = none
        ∧ (fanOutList t q r i vs).1.length = vs.length := by
  intro vs
  induction vs with
  | nil => intro _ i; exact ⟨rfl, rfl⟩
  | cons v tl ih =>
    intro h i
    have h1 := pas_ok v (h v (List.mem_cons_self v tl))
    have h2 := ih (fun x hx => h x (List.mem_cons_of_mem _ hx)) (i + 1)
    simp only [fanOutList, h1]
    simpa using h2

/-- Index-wise fan-out where element `bad` fails to serialize after a run of
serializable elements: the publishes for the earlier elements survive, the
elements after `bad` produce nothing, and the error is reported. -/
theorem fanOutList_split (t : TopicM) (q : Nat) (r : Bool) (e : String) (bad : Payload)
    (hbad : payload_as_string bad = Except.error e) (rest : List Payload) :
    ∀ pre : List Payload, (∀ v ∈ pre, isOkB (payload_as_string v) = true) →
      ∀ i, fanOutList t q r i (pre ++ bad :: rest) = ((fanOutList t q r i pre).1, some e) := by
  intro pre
  induction pre with
  | nil => intro _ i; simp [fanOutList, hbad]
  | cons v tl ih =>
    intro h i
    have h1 := pas_ok v (h v (List.mem_cons_self v tl))
    have h2 := ih (fun x hx => h x (List.mem_cons_of_mem _ hx))
    simp only [List.cons_append, fanOutList, h1, List.append_eq, h2]

/-- Key-wise fan-out where the value of key `k` fails to serialize after a run
of serializable members. -/
theorem fanOutDict_split (t : TopicM) (q : Nat) (r : Bool) (e : String) (k : String)
    (badV : Payload) (hbad : payload_as_string badV = Except.error e)
    (rest : List (String × Payload)) :
    ∀ pre : List (String × Payload), (∀ kv ∈ pre, isOkB (payload_as_string kv.2) = true) →
      fanOutDict t q r (pre ++ (k, badV) :: rest) = ((fanOutDict t q r pre).1, some e) := by
  intro pre
  induction pre with
  | nil => intro _; simp [fanOutDict, hbad]
  | cons kv tl ih =>
    intro h
    have h1 := pas_ok kv.2 (h kv (List.mem_cons_self kv tl))
    have h2 := ih (fun x hx => h x (List.mem_cons_of_mem _ hx))
    simp only [List.cons_append, fanOutDict, h1, List.append_eq, h2]

/-- Every publish produced by index-wise fan-out carries the given QoS and
retain flag. -/
theorem fanOutList_qr (t : TopicM) (q : Nat) (r : Bool) :
    ∀ (vs : List Payload) (i : Nat) (p : Publish),
      p ∈ (fanOutList t q r i vs).1 → p.qos = q ∧ p.retain = r := by
  intro vs
  induction vs with
  | nil => intro i p hp; simp [fanOutList] at hp
  | cons v tl ih =>
    intro i p hp
    cases hv : payload_as_string v with
    | error e => simp [fanOutList, hv] at hp
    | ok s =>
      simp only [fanOutList, hv, List.mem_cons] at hp
      rcases hp with h | h
      · subst h; exact ⟨rfl, rfl⟩
      · exact ih (i + 1) p h

/-- Every publish produced by key-wise fan-out carries the given QoS and
retain flag. -/
theorem fanOutDict_qr (t : TopicM) (q : Nat) (r : Bool) :
    ∀ (kvs : List (String × Payload)) (p : Publish),
      p ∈ (fanOutDict t q r kvs).1 → p.qos = q ∧ p.retain = r := by
  intro kvs
  induction kvs with
  | nil => intro p hp; simp [fanOutDict] at hp
  | cons kv tl ih =>
    intro p hp
    cases hv : payload_as_string kv.2 with
    | error e => simp [fanOutDict, hv] at hp
    | ok s =>
      simp only [fanOutDict, hv, List.mem_cons] at hp
      rcases hp with h | h
      · subst h; exact ⟨rfl, rfl⟩
      · exact ih p h

/-- Every start time assigned by `schedule` is at or after the time the
processing context becomes free. -/
theorem schedule_ge (l : List (Nat × BrokerEvent)) :
    ∀ f, ∀ p ∈ schedule f l, f ≤ p.1 := by
  induction l with
  | nil => intro f p hp; simp [schedule] at hp
  | cons hd tl ih =>
    intro f p hp
    obtain ⟨arr, e⟩ := hd
    simp only [schedule, List.mem_cons] at hp
    rcases hp with h | h
    · subst h; simp [Nat.le_max_left]
    · have := ih (max f arr + handlerTime e) p h
      omega

/-! ## Claim theorems -/

/-- Claim C1: for every inbound message whose resolved payload is a list or a
dict and whose output topic is not wildcard-marked, `run_task` emits exactly
one publish, to the error topic, carrying the multi-valued-result message,
and no data publish to the base topic or any subtopic. -/
theorem c1_multivalued_nonwildcard_single_error (task : String) (t : TopicM) (q : Nat)
    (r : Bool) (payload : Payload) (h1 : is_seq payload = true)
    (h2 : t.is_multitopic = false) :
    run_task task t q r (Except.ok payload) = [errP t (multiValuedMsg task) q r] := by
  have hc : (is_seq payload && !t.is_multitopic) = true := by rw [h1, h2]; rfl
  simp [run_task, hc]

/-- Witness for C1 at a two-element list on a non-wildcard topic. -/
theorem c1_witness :
    run_task wTask wTopicPlain 0 false (Except.ok (Payload.plist [Payload.pint 1, Payload.pint 2]))
      = [errP wTopicPlain (multiValuedMsg wTask) 0 false] :=
  c1_multivalued_nonwildcard_single_error wTask wTopicPlain 0 false
    (Payload.plist [Payload.pint 1, Payload.pint 2]) rfl rfl

/-- Claim C2: when the value-resolution collaborator raises, `run_task`
catches the exception and emits exactly one publish, to the error topic,
whose payload is the string form of the error; it performs no data publish
and returns normally (it is a total function into the publish list). -/
theorem c2_resolver_error_single_error_publish (task : String) (t : TopicM) (q : Nat)
    (r : Bool) (e : String) :
    run_task task t q r (Except.error e) = [errP t e q r] := rfl

/-- Claim C4: a single-element sequence is serialized by recursively
serializing its sole element as if it were top-level. -/
theorem c4_singleton_flattening (v : Payload) :
    payload_as_string (Payload.plist [v]) = payload_as_string v := rfl

/-- Claim C6, counterexample: with Python assertions disabled (`-O`), a
second construction is accepted and silently replaces the registered
instance, so the second construction is not rejected; the guard is only a
disableable runtime assertion. -/
theorem c6_counterexample :
    mqttClient_init false (some wClientA) wClientB = Except.ok (some wClientB) := rfl

/-- Claim C6, amended: the first construction succeeds and registers the
instance; a second construction fails the `assert theClient is None` guard
when assertions are enabled (the Python default), but the guard is a runtime
assertion that interpreter options can disable, not a construction-time
error in all modes. -/
theorem c6_singleton_assert :
    (∀ c c2 : ClientRec, mqttClient_init true (some c) c2 = Except.error assertErr)
    ∧ (∀ (ae : Bool) (c : ClientRec), mqttClient_init ae none c = Except.ok (some c)) := by
  constructor
  · intro c c2; rfl
  · intro ae c; cases ae <;> rfl

/-- Claim C7: processing a disconnect notification occupies the single
event-processing context for 10 time units, and every event behind it in the
queue — connect attempts included — starts only at or after the end of that
cooldown window, regardless of how early it arrived. -/
theorem c7_disconnect_cooldown (free arr : Nat) (tl : List (Nat × BrokerEvent)) :
    schedule free ((arr, BrokerEvent.disconnect) :: tl)
      = (max free arr, BrokerEvent.disconnect) :: schedule (max free arr + 10) tl
    ∧ ∀ p ∈ schedule (max free arr + 10) tl, max free arr + 10 ≤ p.1 :=
  ⟨by simp [schedule, handlerTime], schedule_ge tl (max free arr + 10)⟩

/-- Witness for C7: a connect attempt arriving at time 3, during the cooldown
that a time-0 disconnect starts, is processed only at time 10. -/
theorem c7_witness :
    max 0 0 + 10 ≤ ((10, BrokerEvent.connectAttempt) : Nat × BrokerEvent).1 :=
  (c7_disconnect_cooldown 0 0 [(3, BrokerEvent.connectAttempt)]).2
    (10, BrokerEvent.connectAttempt) (by simp [schedule])

/-- Claim C8: every publish `run_task` emits — data publishes to the base
topic or subtopics as well as error-topic publishes — carries the QoS and
retain flag fixed at construction. -/
theorem c8_uniform_qos_retain (task : String) (t : TopicM) (q : Nat) (r : Bool)
    (res : Except String Payload) :
    ∀ p ∈ run_task task t q r res, p.qos = q ∧ p.retain = r := by
  intro p hp
  cases res with
  | error e =>
    simp only [run_task, List.mem_singleton] at hp
    subst hp; exact ⟨rfl, rfl⟩
  | ok payload =>
    by_cases hc : (is_seq payload && !t.is_multitopic) = true
    · simp only [run_task, hc, if_true] at hp
      simp only [List.mem_singleton] at hp
      subst hp; exact ⟨rfl, rfl⟩
    · cases payload with
      | plist vs =>
        simp only [run_task, if_neg hc] at hp
        cases hfo : (fanOutList t q r 0 vs).2 with
        | none =>
          rw [hfo] at hp
          exact fanOutList_qr t q r vs 0 p hp
        | some e =>
          rw [hfo] at hp
          rcases List.mem_append.1 hp with h | h
          · exact fanOutList_qr t q r vs 0 p h
          · simp only [List.mem_singleton] at h
            subst h; exact ⟨rfl, rfl⟩
      | pdict kvs =>
        simp only [run_task, if_neg hc] at hp
        cases hfo : (fanOutDict t q r kvs).2 with
        | none =>
          rw [hfo] at hp
          exact fanOutDict_qr t q r kvs p hp
        | some e =>
          rw [hfo] at hp
          rcases List.mem_append.1 hp with h | h
          · exact fanOutDict_qr t q r kvs p h
          · simp only [List.mem_singleton] at h
            subst h; exact ⟨rfl, rfl⟩
      | pnone =>
        simp only [run_task, if_neg hc, payload_as_string, List.mem_singleton] at hp
        subst hp; exact ⟨rfl, rfl⟩
      | pbool b =>
        simp only [run_task, if_neg hc, payload_as_string, List.mem_singleton] at hp
        subst hp; exact ⟨rfl, rfl⟩
      | pint n =>
        simp only [run_task, if_neg hc, payload_as_string, List.mem_singleton] at hp
        subst hp; exact ⟨rfl, rfl⟩
      | pstr s =>
        simp only [run_task, if_neg hc, payload_as_string, List.mem_singleton] at hp
        subst hp; exact ⟨rfl, rfl⟩
      | penum n =>
        simp only [run_task, if_neg hc, payload_as_string, List.mem_singleton] at hp
        subst hp; exact ⟨rfl, rfl⟩
      | pobj s =>
        simp only [run_task, if_neg hc, payload_as_string, List.mem_singleton] at hp
        subst hp; exact ⟨rfl, rfl⟩

/-- Witness for C8 at a resolver error: the error publish carries QoS 2 and
retain true as configured. -/
theorem c8_witness :
    (errP wTopicWild wErr 2 true).qos = 2 ∧ (errP wTopicWild wErr 2 true).retain = true :=
  c8_uniform_qos_retain wTask wTopicWild 2 true (Except.error wErr)
    (errP wTopicWild wErr 2 true) (by simp [run_task])

/-- Claim C3: for a dict payload on a wildcard-marked topic, `run_task`
performs exactly one publish per mapping key, in insertion order, to the
subtopic derived from that key, with payload `payload_as_string` of the
key's value — so the published subtopics are exactly the images of the
mapping keys, no more, no fewer.  The hypothesis confines the claim to
payloads whose values serialize, which is the spec's payload domain. -/
theorem c3_dict_fanout (task : String) (t : TopicM) (q : Nat) (r : Bool)
    (kvs : List (String × Payload)) (h1 : t.is_multitopic = true)
    (h2 : ∀ kv ∈ kvs, isOkB (payload_as_string kv.2) = true) :
    run_task task t q r (Except.ok (Payload.pdict kvs))
      = kvs.map (fun kv => ⟨t.get_subtopic kv.1, pasD kv.2, q, r⟩)
    ∧ ∀ kv ∈ kvs, payload_as_string kv.2 = Except.ok (pasD kv.2) := by
  constructor
  · have hfo := fanOutDict_ok t q r kvs h2
    simp [run_task, h1, hfo]
  · intro kv hkv
    exact pas_ok kv.2 (h2 kv hkv)

/-- Witness for C3 at the two-disk mapping of spec Scenario B. -/
theorem c3_witness :
    run_task wTask wTopicWild 1 false
        (Except.ok (Payload.pdict [(wKeyA, Payload.pint 10), (wKeyB, Payload.pint 20)]))
      = [(wKeyA, Payload.pint 10), (wKeyB, Payload.pint 20)].map
          (fun kv => ⟨wTopicWild.get_subtopic kv.1, pasD kv.2, 1, false⟩)
    ∧ ∀ kv ∈ [(wKeyA, Payload.pint 10), (wKeyB, Payload.pint 20)],
        payload_as_string kv.2 = Except.ok (pasD kv.2) :=
  c3_dict_fanout wTask wTopicWild 1 false
    [(wKeyA, Payload.pint 10), (wKeyB, Payload.pint 20)] rfl
    (by simp [payload_as_string, isOkB])

/-- Claim C9: fan-out is not atomic on failure.  If, on a wildcard-marked
topic, the element at some position of a list payload (or the value of some
key of a dict payload) fails to serialize while all earlier ones succeeded,
the publishes already emitted for the earlier elements remain — one per
earlier element — no publish happens for the failing or later elements, and
`run_task` emits exactly one additional publish, to the error topic, and
returns normally. -/
theorem c9_fanout_not_atomic (task : String) (t : TopicM) (q : Nat) (r : Bool)
    (pre rest : List Payload) (bad : Payload) (e : String)
    (preKV restKV : List (String × Payload)) (k : String) (badV : Payload) (e2 : String)
    (hm : t.is_multitopic = true)
    (hpre : ∀ v ∈ pre, isOkB (payload_as_string v) = true)
    (hbad : payload_as_string bad = Except.error e)
    (hpreKV : ∀ kv ∈ preKV, isOkB (payload_as_string kv.2) = true)
    (hbadV : payload_as_string badV = Except.error e2) :
    (run_task task t q r (Except.ok (Payload.plist (pre ++ bad :: rest)))
        = (fanOutList t q r 0 pre).1 ++ [errP t e q r]
      ∧ (fanOutList t q r 0 pre).1.length = pre.length)
    ∧ (run_task task t q r (Except.ok (Payload.pdict (preKV ++ (k, badV) :: restKV)))
        = (fanOutDict t q r preKV).1 ++ [errP t e2 q r]
      ∧ (fanOutDict t q r preKV).1.length = preKV.length) := by
  refine ⟨⟨?_, ?_⟩, ⟨?_, ?_⟩⟩
  · have hsplit := fanOutList_split t q r e bad hbad rest pre hpre 0
    simp [run_task, hm, hsplit]
  · have hok := fanOutList_ok t q r pre hpre 0
    exact hok.2
  · have hsplit := fanOutDict_split t q r e2 k badV hbadV restKV preKV hpreKV
    simp [run_task, hm, hsplit]
  · have hok := fanOutDict_ok t q r preKV hpreKV
    rw [hok]
    simp

/-- Witness for C9: one serializable element, then a dict containing a
non-serializable object. -/
theorem c9_witness :
    (run_task wTask wTopicWild 0 false
        (Except.ok (Payload.plist
          ([Payload.pint 1] ++ Payload.pdict [(wKeyA, Payload.pobj wObj)] :: [])))
        = (fanOutList wTopicWild 0 false 0 [Payload.pint 1]).1
            ++ [errP wTopicWild jsonErrMsg 0 false]
      ∧ (fanOutList wTopicWild 0 false 0 [Payload.pint 1]).1.length
          = [Payload.pint 1].length)
    ∧ (run_task wTask wTopicWild 0 false
        (Except.ok (Payload.pdict
          ([(wKeyA, Payload.pint 1)] ++ (wKeyB, Payload.pdict [(wKeyA, Payload.pobj wObj)]) :: [])))
        = (fanOutDict wTopicWild 0 false [(wKeyA, Payload.pint 1)]).1
            ++ [errP wTopicWild jsonErrMsg 0 false]
      ∧ (fanOutDict wTopicWild 0 false [(wKeyA, Payload.pint 1)]).1.length
          = [(wKeyA, Payload.pint 1)].length) :=
  c9_fanout_not_atomic wTask wTopicWild 0 false
    [Payload.pint 1] [] (Payload.pdict [(wKeyA, Payload.pobj wObj)]) jsonErrMsg
    [(wKeyA, Payload.pint 1)] [] wKeyB (Payload.pdict [(wKeyA, Payload.pobj wObj)]) jsonErrMsg
    rfl
    (by simp [payload_as_string, isOkB])
    (by simp [payload_as_string, jsonDumps, serializable, serializableKV])
    (by simp [payload_as_string, isOkB])
    (by simp [payload_as_string, jsonDumps, serializable, serializableKV])

/-- Claim C10: an empty list or empty dict payload yields zero publishes of
any kind on a wildcard-marked topic; on a non-wildcard topic the
multi-valued-result fault still fires even though there are no elements,
yielding exactly one error-topic publish. -/
theorem c10_empty_collections (task : String) (t : TopicM) (q : Nat) (r : Bool) :
    (t.is_multitopic = true →
      run_task task t q r (Except.ok (Payload.plist [])) = []
        ∧ run_task task t q r (Except.ok (Payload.pdict [])) = [])
    ∧ (t.is_multitopic = false →
      run_task task t q r (Except.ok (Payload.plist []))
          = [errP t (multiValuedMsg task) q r]
        ∧ run_task task t q r (Except.ok (Payload.pdict []))
          = [errP t (multiValuedMsg task) q r]) := by
  constructor
  · intro hw
    constructor <;> simp [run_task, hw, is_seq, fanOutList, fanOutDict]
  · intro hw
    constructor <;> simp [run_task, hw, is_seq]

/-- Witness for C10 on both a wildcard and a non-wildcard topic. -/
theorem c10_witness :
    (run_task wTask wTopicWild 0 false (Except.ok (Payload.plist [])) = []
      ∧ run_task wTask wTopicWild 0 false (Except.ok (Payload.pdict [])) = [])
    ∧ (run_task wTask wTopicPlain 0 false (Except.ok (Payload.plist []))
        = [errP wTopicPlain (multiValuedMsg wTask) 0 false]
      ∧ run_task wTask wTopicPlain 0 false (Except.ok (Payload.pdict []))
        = [errP wTopicPlain (multiValuedMsg wTask) 0 false]) :=
  ⟨(c10_empty_collections wTask wTopicWild 0 false).1 rfl,
   (c10_empty_collections wTask wTopicPlain 0 false).2 rfl⟩

/-! ## Decimal and string round-trip lemmas -/

/-- Digit characters are digits and decode to their value. -/
theorem digitChar_facts :
    ∀ d : Nat, d < 10 → isDigC (digitChar d) = true ∧ (digitChar d).toNat - 48 = d := by
  decide

/-- The fuel argument of `natToDecA` is irrelevant once it exceeds the number. -/
theorem natToDecA_fuel (f : Nat) :
    ∀ f' n, n < f → n < f' → natToDecA f n = natToDecA f' n := by
  induction f with
  | zero => intro f' n h _; omega
  | succ f ih =>
    intro f' n h h'
    match f', h' with
    | f' + 1, h' =>
      show (if n < 10 then [digitChar n] else natToDecA f (n / 10) ++ [digitChar (n % 10)])
        = (if n < 10 then [digitChar n] else natToDecA f' (n / 10) ++ [digitChar (n % 10)])
      by_cases h10 : n < 10
      · simp [h10]
      · have hd : n / 10 < n := Nat.div_lt_self (by omega) (by omega)
        rw [if_neg h10, if_neg h10, ih f' (n / 10) (by omega) (by omega)]

/-- Unfolding lemma for `natToDec` on small numbers. -/
theorem natToDec_lt (n : Nat) (h : n < 10) : natToDec n = [digitChar n] := by
  show (if n < 10 then [digitChar n] else natToDecA n (n / 10) ++ [digitChar (n % 10)]) = _
  rw [if_pos h]

/-- Unfolding lemma for `natToDec` on numbers with several digits. -/
theorem natToDec_ge (n : Nat) (h : ¬ n < 10) :
    natToDec n = natToDec (n / 10) ++ [digitChar (n % 10)] := by
  show (if n < 10 then [digitChar n] else natToDecA n (n / 10) ++ [digitChar (n % 10)])
    = natToDecA (n / 10 + 1) (n / 10) ++ [digitChar (n % 10)]
  have hd : n / 10 < n := Nat.div_lt_self (by omega) (by omega)
  rw [if_neg h, natToDecA_fuel n (n / 10 + 1) (n / 10) (by omega) (by omega)]

/-- Every character of a decimal rendering is a digit. -/
theorem natToDec_digits (n : Nat) : ∀ c ∈ natToDec n, isDigC c = true := by
  induction n using Nat.strong_induction_on with
  | _ n ih =>
    by_cases h : n < 10
    · rw [natToDec_lt n h]
      intro c hc
      simp at hc
      subst hc
      exact (digitChar_facts n h).1
    · rw [natToDec_ge n h]
      intro c hc
      rcases List.mem_append.1 hc with h1 | h2
      · exact ih (n / 10) (Nat.div_lt_self (by omega) (by omega)) c h1
      · simp at h2
        subst h2
        exact (digitChar_facts (n % 10) (by omega)).1

/-- A decimal rendering is never empty. -/
theorem natToDec_ne_nil (n : Nat) : natToDec n ≠ [] := by
  by_cases h : n < 10
  · rw [natToDec_lt n h]; simp
  · rw [natToDec_ge n h]; simp

/-- Folding the digit-accumulation step over a decimal rendering recovers the
number, scaled under the incoming accumulator. -/
theorem natToDec_foldl (n : Nat) :
    ∀ acc, List.foldl (fun a c => a * 10 + (c.toNat - 48)) acc (natToDec n)
      = acc * 10 ^ (natToDec n).length + n := by
  induction n using Nat.strong_induction_on with
  | _ n ih =>
    intro acc
    by_cases h : n < 10
    · rw [natToDec_lt n h]
      have hd := (digitChar_facts n h).2
      simp only [List.foldl, List.length_cons, List.length_nil, zero_add, pow_one]
      omega
    · rw [natToDec_ge n h]
      rw [List.foldl_append, ih (n / 10) (Nat.div_lt_self (by omega) (by omega)) acc]
      have hd := (digitChar_facts (n % 10) (by omega)).2
      simp only [List.foldl, List.length_append, List.length_cons, List.length_nil, zero_add,
        pow_succ]
      rw [hd]
      have h1 : (acc * 10 ^ (natToDec (n / 10)).length + n / 10) * 10
          = acc * (10 ^ (natToDec (n / 10)).length * 10) + n / 10 * 10 := by ring
      rw [h1, Nat.add_assoc]
      congr 1
      omega

/-- Lemma: `parseDigits` consumes exactly a run of digits and folds up its value. -/
theorem parseDigits_append :
    ∀ (l rest : List Char) (acc : Nat), (∀ c ∈ l, isDigC c = true) →
      noDigitHead rest = true →
      parseDigits (l ++ rest) acc
        = (List.foldl (fun a c => a * 10 + (c.toNat - 48)) acc l, rest) := by
  intro l
  induction l with
  | nil =>
    intro rest acc _ hnd
    cases rest with
    | nil => rfl
    | cons c r =>
      simp only [noDigitHead, Bool.not_eq_true'] at hnd
      simp [parseDigits, hnd]
  | cons c tl ih =>
    intro rest acc h hnd
    have hc := h c (List.mem_cons_self c tl)
    simp only [List.cons_append, parseDigits, hc, if_true, List.foldl]
    exact ih rest (acc * 10 + (c.toNat - 48)) (fun x hx => h x (List.mem_cons_of_mem _ hx)) hnd

/-- Lemma: `parseNat` inverts `natToDec` in front of any non-digit continuation. -/
theorem parseNat_natToDec (n : Nat) (rest : List Char) (hnd : noDigitHead rest = true) :
    parseNat (natToDec n ++ rest) = some (n, rest) := by
  obtain ⟨c, l, hcl⟩ : ∃ c l, natToDec n = c :: l := by
    cases hh : natToDec n with
    | nil => exact absurd hh (natToDec_ne_nil n)
    | cons c l => exact ⟨c, l, rfl⟩
  have hdigs : ∀ x ∈ natToDec n, isDigC x = true := natToDec_digits n
  have hc : isDigC c = true := hdigs c (by rw [hcl]; exact List.mem_cons_self c l)
  have hl : ∀ x ∈ l, isDigC x = true := fun x hx =>
    hdigs x (by rw [hcl]; exact List.mem_cons_of_mem _ hx)
  rw [hcl]
  simp only [List.cons_append, parseNat, hc, if_true]
  rw [parseDigits_append l rest (c.toNat - 48) hl hnd]
  have hfold := natToDec_foldl n 0
  rw [hcl] at hfold
  simp only [List.foldl, Nat.zero_mul, Nat.zero_add] at hfold
  rw [hfold]

/-- Escaping never shortens a string. -/
theorem escC_len : ∀ l : List Char, l.length ≤ (escC l).length := by
  intro l
  induction l with
  | nil => simp [escC]
  | cons c tl ih =>
    by_cases h : c = '"' || c = '\\' <;> simp [escC, h] <;> omega

/-- The fueled string parser undoes `escC` up to the closing quote. -/
theorem parseStrF_escC :
    ∀ (f : Nat) (l rest : List Char), l.length < f →
      parseStrF f (escC l ++ ('"' :: rest)) = some (String.mk l, rest) := by
  intro f
  induction f with
  | zero => intro l rest h; omega
  | succ f ih =>
    intro l rest h
    cases l with
    | nil => simp [escC, parseStrF]
    | cons c tl =>
      by_cases hc : c = '"' || c = '\\'
      · have h1 : ¬ ('\\' : Char) = '"' := by decide
        simp only [escC, if_pos hc, List.cons_append, parseStrF, if_neg h1, if_pos rfl,
          if_pos hc]
        rw [ih tl rest (by simp at h; omega)]
        rfl
      · have h2 : ¬ c = '"' := by intro hx; exact absurd (by simp [hx]) hc
        have h3 : ¬ c = '\\' := by intro hx; exact absurd (by simp [hx]) hc
        simp only [escC, if_neg hc, List.cons_append, parseStrF, if_neg h2, if_neg h3]
        rw [ih tl rest (by simp at h; omega)]
        rfl

/-- Lemma: `parseStr` undoes `escC` up to the closing quote. -/
theorem parseStr_escC (l rest : List Char) :
    parseStr (escC l ++ ('"' :: rest)) = some (String.mk l, rest) := by
  have hlen := escC_len l
  apply parseStrF_escC
  simp only [List.length_append, List.length_cons]
  omega

/-! ## Helper lemmas for the JSON round trip -/

/-- Rebuilding a string from its characters is the identity. -/
theorem mkData (s : String) : String.mk s.data = s := by
  cases s; rfl

/-- A digit character is not a space, closing bracket or closing brace. -/
theorem isDigC_ne (c : Char) (h : isDigC c = true) :
    c ≠ ' ' ∧ c ≠ ']' ∧ c ≠ '}' := by
  refine ⟨?_, ?_, ?_⟩ <;> intro hx <;> subst hx <;> exact absurd h (by decide)

/-- Lemma: `jsonOk` on an array unfolds to `jsonOkL`. -/
theorem jsonOk_plist (vs : List Payload) : jsonOk (Payload.plist vs) = jsonOkL vs := by
  simp [jsonOk, jsonOkL, serializable, noEnum]

/-- Lemma: `jsonOk` on an object unfolds to `jsonOkKV`. -/
theorem jsonOk_pdict (kvs : List (String × Payload)) :
    jsonOk (Payload.pdict kvs) = jsonOkKV kvs := by
  simp [jsonOk, jsonOkKV, serializable, noEnum]

/-- Lemma: `jsonOkL` splits over cons. -/
theorem jsonOkL_cons (v : Payload) (tl : List Payload) :
    jsonOkL (v :: tl) = (jsonOk v && jsonOkL tl) := by
  simp only [jsonOkL, jsonOk, serializableL, noEnumL]
  cases serializable v <;> cases noEnum v <;> cases serializableL tl <;> cases noEnumL tl <;> rfl

/-- Lemma: `jsonOkKV` splits over cons. -/
theorem jsonOkKV_cons (kv : String × Payload) (tl : List (String × Payload)) :
    jsonOkKV (kv :: tl) = (jsonOk kv.2 && jsonOkKV tl) := by
  simp only [jsonOkKV, jsonOk, serializableKV, noEnumKV]
  cases serializable kv.2 <;> cases noEnum kv.2 <;> cases serializableKV tl <;>
    cases noEnumKV tl <;> rfl

/-- Lemma: `skipWs` drops a leading space. -/
theorem skipWs_space (l : List Char) : skipWs (' ' :: l) = skipWs l := by
  simp [skipWs]

/-- Lemma: `skipWs` keeps an input that does not start with a space. -/
theorem skipWs_keep (c : Char) (l : List Char) (h : ¬ c = ' ') : skipWs (c :: l) = c :: l := by
  simp [skipWs, h]

/-- Lemma: `startsWith1` on a mismatching head. -/
theorem startsWith1_ne (c : Char) (l : List Char) (t : Char) (h : ¬ c = t) :
    startsWith1 (c :: l) t = false := by
  simp [startsWith1, h]

/-- Lemma: `noDigitHead` holds when the head is not a digit. -/
theorem noDigitHead_cons (c : Char) (l : List Char) (h : isDigC c = false) :
    noDigitHead (c :: l) = true := by
  simp [noDigitHead, h]

/-- The rendering of a JSON-representable value is nonempty and starts with a
character that is not a space, a closing bracket or a closing brace. -/
theorem encC_cons (v : Payload) (h : jsonOk v = true) :
    ∃ c l, encC v = c :: l ∧ c ≠ ' ' ∧ c ≠ ']' ∧ c ≠ '}' := by
  cases v with
  | pnone => refine ⟨'n', _, rfl, ?_, ?_, ?_⟩ <;> decide
  | pbool b => cases b with
    | true => refine ⟨'t', _, rfl, ?_, ?_, ?_⟩ <;> decide
    | false => refine ⟨'f', _, rfl, ?_, ?_, ?_⟩ <;> decide
  | pint n =>
    by_cases hn : n < 0
    · have henc2 : encC (Payload.pint n) = '-' :: natToDec n.natAbs := by
        simp [encC, intToDec, hn]
      refine ⟨'-', natToDec n.natAbs, henc2, ?_, ?_, ?_⟩ <;> decide
    · obtain ⟨c, l, hcl⟩ : ∃ c l, natToDec n.toNat = c :: l := by
        cases hh : natToDec n.toNat with
        | nil => exact absurd hh (natToDec_ne_nil n.toNat)
        | cons c l => exact ⟨c, l, rfl⟩
      have hc : isDigC c = true :=
        natToDec_digits n.toNat c (by rw [hcl]; exact List.mem_cons_self c l)
      have hne := isDigC_ne c hc
      refine ⟨c, l, ?_, hne.1, hne.2.1, hne.2.2⟩
      simp [encC, intToDec, hn, hcl]
  | pstr s => refine ⟨'"', _, rfl, ?_, ?_, ?_⟩ <;> decide
  | penum n =>
    rw [show jsonOk (Payload.penum n) = false from by simp [jsonOk, noEnum]] at h
    exact absurd h (by simp)
  | pobj s =>
    rw [show jsonOk (Payload.pobj s) = false from by simp [jsonOk, serializable]] at h
    exact absurd h (by simp)
  | plist vs =>
    cases vs with
    | nil => refine ⟨'[', _, rfl, ?_, ?_, ?_⟩ <;> decide
    | cons v0 tl => refine ⟨'[', _, rfl, ?_, ?_, ?_⟩ <;> decide
  | pdict kvs =>
    cases kvs with
    | nil => refine ⟨'{', _, rfl, ?_, ?_, ?_⟩ <;> decide
    | cons kv tl => refine ⟨'{', _, rfl, ?_, ?_, ?_⟩ <;> decide

/-- Lemma: `skipWs` keeps the rendering of a JSON-representable value. -/
theorem skipWs_encC (v : Payload) (h : jsonOk v = true) (X : List Char) :
    skipWs (encC v ++ X) = encC v ++ X := by
  obtain ⟨c, l, hcl, hsp, _, _⟩ := encC_cons v h
  rw [hcl, List.cons_append, skipWs_keep c (l ++ X) hsp]

/-- The JSON parser inverts the modelled `json.dumps` rendering: a rendered
JSON-representable value followed by any continuation that cannot extend a
number parses back to exactly that value, for every sufficient fuel. -/
theorem parse_encC (f : Nat) :
    (∀ v rest, jsonOk v = true → noDigitHead rest = true → (encC v).length < f →
      parseVal f (encC v ++ rest) = some (v, rest))
    ∧ (∀ v vs rest, jsonOk v = true → jsonOkL vs = true → noDigitHead rest = true →
        (encC v).length + (encLTail vs).length + 1 < f →
        parseElems f (encC v ++ (encLTail vs ++ (']' :: rest))) = some (v :: vs, rest))
    ∧ (∀ k v kvs rest, jsonOk v = true → jsonOkKV kvs = true → noDigitHead rest = true →
        (encMem (k, v)).length + (encKVTail kvs).length + 1 < f →
        parseMembers f (encMem (k, v) ++ (encKVTail kvs ++ ('}' :: rest)))
          = some ((k, v) :: kvs, rest)) := by
  induction f with
  | zero =>
    refine ⟨?_, ?_, ?_⟩
    · intro v rest _ _ h; omega
    · intro v vs rest _ _ _ h; omega
    · intro k v kvs rest _ _ _ h; omega
  | succ f ih =>
    obtain ⟨ihV, ihE, ihM⟩ := ih
    refine ⟨?_, ?_, ?_⟩
    · intro v rest hok hnd hlen
      cases v with
      | pnone => simp [encC, parseVal, expect, isDigC]
      | pbool b => cases b <;> simp [encC, parseVal, expect, isDigC]
      | pint n =>
        by_cases hn : n < 0
        · have henc : encC (Payload.pint n) = '-' :: natToDec n.natAbs := by
            simp [encC, intToDec, hn]
          have hpn := parseNat_natToDec n.natAbs rest hnd
          rw [henc, List.cons_append]
          simp [parseVal, isDigC, hpn]
          rw [abs_of_neg hn]
          exact neg_neg n
        · have h0 : 0 ≤ n := by omega
          have henc : encC (Payload.pint n) = natToDec n.toNat := by
            simp [encC, intToDec, hn]
          obtain ⟨c, l, hcl⟩ : ∃ c l, natToDec n.toNat = c :: l := by
            cases hh : natToDec n.toNat with
            | nil => exact absurd hh (natToDec_ne_nil n.toNat)
            | cons c l => exact ⟨c, l, rfl⟩
          have hc : isDigC c = true :=
            natToDec_digits n.toNat c (by rw [hcl]; exact List.mem_cons_self c l)
          have hpn := parseNat_natToDec n.toNat rest hnd
          rw [hcl, List.cons_append] at hpn
          have hval : ((n.toNat : Nat) : Int) = n := Int.toNat_of_nonneg h0
          rw [henc, hcl, List.cons_append]
          simp [parseVal, hc, hpn, hval]
      | pstr s =>
        have hps := parseStr_escC s.data rest
        simp [encC, parseVal, isDigC, List.append_assoc, hps, mkData s]
      | penum n =>
        rw [show jsonOk (Payload.penum n) = false from by simp [jsonOk, noEnum]] at hok
        exact absurd hok (by simp)
      | pobj s =>
        rw [show jsonOk (Payload.pobj s) = false from by simp [jsonOk, serializable]] at hok
        exact absurd hok (by simp)
      | plist vs =>
        cases vs with
        | nil => simp [encC, parseVal, isDigC, startsWith1]
        | cons v0 tl =>
          rw [jsonOk_plist, jsonOkL_cons, Bool.and_eq_true] at hok
          obtain ⟨hok0, hokT⟩ := hok
          obtain ⟨c0, l0, hc0, hsp0, hrb0, hcb0⟩ := encC_cons v0 hok0
          have hsw : startsWith1 (encC v0 ++ (encLTail tl ++ (']' :: rest))) ']' = false := by
            rw [hc0, List.cons_append]
            exact startsWith1_ne c0 _ ']' hrb0
          have hel := ihE v0 tl rest hok0 hokT hnd (by
            simp only [encC, List.length_cons, List.length_append] at hlen
            omega)
          simp [encC, parseVal, isDigC, List.append_assoc, hsw, hel]
      | pdict kvs =>
        cases kvs with
        | nil => simp [encC, parseVal, isDigC, startsWith1]
        | cons kv tl =>
          obtain ⟨k0, v0⟩ := kv
          rw [jsonOk_pdict, jsonOkKV_cons, Bool.and_eq_true] at hok
          obtain ⟨hok0, hokT⟩ := hok
          have hsw : startsWith1 (encMem (k0, v0) ++ (encKVTail tl ++ ('}' :: rest))) '}'
              = false := by
            simp only [encMem, List.cons_append]
            exact startsWith1_ne '"' _ '}' (by decide)
          have hm := ihM k0 v0 tl rest hok0 hokT hnd (by
            simp only [encC, List.length_cons, List.length_append] at hlen
            omega)
          simp [encC, parseVal, isDigC, List.append_assoc, hsw, hm]
    · intro v vs rest hokv hokl hnd hlen
      cases vs with
      | nil =>
        have hnd2 : noDigitHead (']' :: rest) = true := noDigitHead_cons ']' rest (by decide)
        have hV := ihV v (']' :: rest) hokv hnd2 (by omega)
        simp only [encLTail, List.nil_append]
        simp [parseElems, hV]
      | cons v2 tl2 =>
        rw [jsonOkL_cons, Bool.and_eq_true] at hokl
        obtain ⟨hok2, hokT2⟩ := hokl
        have hnd2 : noDigitHead
            (',' :: ' ' :: (encC v2 ++ (encLTail tl2 ++ (']' :: rest)))) = true :=
          noDigitHead_cons ',' _ (by decide)
        have hV := ihV v (',' :: ' ' :: (encC v2 ++ (encLTail tl2 ++ (']' :: rest))))
          hokv hnd2 (by simp only [encLTail, List.length_cons, List.length_append] at hlen; omega)
        have hskip : skipWs (' ' :: (encC v2 ++ (encLTail tl2 ++ (']' :: rest))))
            = encC v2 ++ (encLTail tl2 ++ (']' :: rest)) := by
          rw [skipWs_space]
          exact skipWs_encC v2 hok2 _
        have hE2 := ihE v2 tl2 rest hok2 hokT2 hnd (by
          simp only [encLTail, List.length_cons, List.length_append] at hlen
          omega)
        simp only [encLTail, List.cons_append, List.append_assoc]
        simp [parseElems, hV, hskip, hE2]
    · intro k v kvs rest hokv hokk hnd hlen
      have hlenV : (encC v).length < f := by
        simp only [encMem, List.length_cons, List.length_append] at hlen
        omega
      cases kvs with
      | nil =>
        have hps := parseStr_escC k.data (':' :: ' ' :: (encC v ++ ('}' :: rest)))
        have hnd2 : noDigitHead ('}' :: rest) = true := noDigitHead_cons '}' rest (by decide)
        have hV := ihV v ('}' :: rest) hokv hnd2 hlenV
        have hskip : skipWs (' ' :: (encC v ++ ('}' :: rest))) = encC v ++ ('}' :: rest) := by
          rw [skipWs_space]
          exact skipWs_encC v hokv _
        simp only [encKVTail, List.nil_append, encMem, List.cons_append, List.append_assoc]
        simp [parseMembers, List.append_assoc, hps, mkData k, hskip, hV]
      | cons kv2 tl2 =>
        obtain ⟨k2, v2⟩ := kv2
        rw [jsonOkKV_cons, Bool.and_eq_true] at hokk
        obtain ⟨hok2, hokT2⟩ := hokk
        have hps := parseStr_escC k.data (':' :: ' ' :: (encC v ++ (',' :: ' ' ::
          (encMem (k2, v2) ++ (encKVTail tl2 ++ ('}' :: rest))))))
        have hnd2 : noDigitHead (',' :: ' ' ::
            (encMem (k2, v2) ++ (encKVTail tl2 ++ ('}' :: rest)))) = true :=
          noDigitHead_cons ',' _ (by decide)
        have hV := ihV v (',' :: ' ' :: (encMem (k2, v2) ++ (encKVTail tl2 ++ ('}' :: rest))))
          hokv hnd2 hlenV
        have hskipV : skipWs (' ' :: (encC v ++ (',' :: ' ' ::
            (encMem (k2, v2) ++ (encKVTail tl2 ++ ('}' :: rest))))))
            = encC v ++ (',' :: ' ' ::
            (encMem (k2, v2) ++ (encKVTail tl2 ++ ('}' :: rest)))) := by
          rw [skipWs_space]
          exact skipWs_encC v hokv _
        have hskip2 : skipWs (' ' :: (encMem (k2, v2) ++ (encKVTail tl2 ++ ('}' :: rest))))
            = encMem (k2, v2) ++ (encKVTail tl2 ++ ('}' :: rest)) := by
          rw [skipWs_space]
          simp only [encMem, List.cons_append]
          exact skipWs_keep '"' _ (by decide)
        have hM2 := ihM k2 v2 tl2 rest hok2 hokT2 hnd (by
          simp only [encKVTail, List.length_cons, List.length_append] at hlen
          omega)
        simp only [encKVTail, encMem, List.cons_append, List.append_assoc]
          at hps hV hskipV hskip2 hM2 ⊢
        simp [parseMembers, List.append_assoc, hps, mkData k, hskipV, hV, hskip2, hM2]

/-- Claim C5: for every JSON-representable mapping value, `payload_as_string`
succeeds with the JSON rendering, and parsing that rendering as JSON
reproduces the mapping exactly (round trip). -/
theorem c5_json_roundtrip (kvs : List (String × Payload))
    (h : jsonOk (Payload.pdict kvs) = true) :
    payload_as_string (Payload.pdict kvs)
      = Except.ok (String.mk (encC (Payload.pdict kvs)))
    ∧ jsonParse (String.mk (encC (Payload.pdict kvs))) = some (Payload.pdict kvs) := by
  have hser : serializable (Payload.pdict kvs) = true := by
    simp only [jsonOk, Bool.and_eq_true] at h
    exact h.1
  constructor
  · simp [payload_as_string, jsonDumps, hser]
  · have hP := (parse_encC ((encC (Payload.pdict kvs)).length + 1)).1
      (Payload.pdict kvs) [] h (by rfl) (by omega)
    rw [List.append_nil] at hP
    have hdata : (String.mk (encC (Payload.pdict kvs))).data = encC (Payload.pdict kvs) := rfl
    simp [jsonParse, hdata, hP]

/-- Witness for C5 at the two-disk mapping of spec Scenario B. -/
theorem c5_witness :
    jsonOk (Payload.pdict [(wKeyA, Payload.pint 10), (wKeyB, Payload.pint 20)]) = true
    ∧ (payload_as_string (Payload.pdict [(wKeyA, Payload.pint 10), (wKeyB, Payload.pint 20)])
        = Except.ok (String.mk (encC
            (Payload.pdict [(wKeyA, Payload.pint 10), (wKeyB, Payload.pint 20)])))
      ∧ jsonParse (String.mk (encC
            (Payload.pdict [(wKeyA, Payload.pint 10), (wKeyB, Payload.pint 20)])))
        = some (Payload.pdict [(wKeyA, Payload.pint 10), (wKeyB, Payload.pint 20)])) :=
  ⟨by simp [jsonOk, serializable, serializableKV, noEnum, noEnumKV],
   c5_json_roundtrip [(wKeyA, Payload.pint 10), (wKeyB, Payload.pint 20)]
     (by simp [jsonOk, serializable, serializableKV, noEnum, noEnumKV])⟩
